import Mathlib

/-!
Verification development for the BayesianHypernet repository.

Shallow embedding of `src/BHNs.py` (class `Base_BHN` and its subclass
`MLPWeightNorm_BHN`) and of `src/toy_examples/mlp_hmc.py` (`unpack`,
`get_num_params`).  Real-valued tensor arithmetic is embedded over `ℚ`
(exact rationals) except for the gradient-norm computation, which needs a
square root and is embedded over `ℝ`.  Per-row quantities of a Theano
tensor of shape `(batch, ·)` are embedded as `List ℚ`; matrices as
`List (List ℚ)`.  The natural logarithm used inside the cross-entropy is
kept abstract as a parameter `logf : ℚ → ℚ` since only the algebraic
combination of the terms, never a particular value of `log`, is at stake
in the claims.
-/

namespace BHNs

/-- Theano `.mean()` of a vector: sum divided by length. -/
def mean (xs : List ℚ) : ℚ := xs.sum / (xs.length : ℚ)

/-- Embeds `Base_BHN._get_elbo`: `self.logqw = - logdets` (per row). -/
def logqw (logdets : List ℚ) : List ℚ := logdets.map (fun d => -d)

/-- Embeds `Base_BHN._get_elbo`: `self.kl = (self.logqw - self.logpw).mean()`,
with `logpw` the per-row log prior density of the sampled weights. -/
def kl (logdets logpw : List ℚ) : ℚ :=
  mean (List.zipWith (fun q p => q - p) (logqw logdets) logpw)

/-- Embeds `Base_BHN._get_elbo`:
`self.loss = - (self.logpyx - self.weight * self.kl / dataset_size)`. -/
def loss (logpyx : ℚ) (logdets logpw : List ℚ) (weight dataset_size : ℚ) : ℚ :=
  -(logpyx - weight * kl logdets logpw / dataset_size)

/-- Embeds `lasagne.objectives.categorical_crossentropy(predictions, targets)`
on one row: `- sum(targets * log(predictions))`. -/
def cc (logf : ℚ → ℚ) (yRow tRow : List ℚ) : ℚ :=
  -(List.zipWith (fun yi ti => ti * logf yi) yRow tRow).sum

/-- Theano `T.clip(x, lo, hi)` on one scalar. -/
def clip (lo hi x : ℚ) : ℚ := min (max x lo) hi

/-- Embeds `MLPWeightNorm_BHN._get_primary_net`, categorical branch:
`y = T.clip(get_output(p_net, inputs), 0.001, 0.999)`, elementwise over
the (unclipped) softmax output matrix. -/
def y_categorical (yUnclipped : List (List ℚ)) : List (List ℚ) :=
  yUnclipped.map (List.map (clip (1/1000) (999/1000)))

/-- Embeds `MLPWeightNorm_BHN._get_useful_funcs`:
`self.predict_proba = theano.function([self.input_var], self.y)`: it
returns exactly the clipped tensor `self.y`. -/
def predict_proba (yUnclipped : List (List ℚ)) : List (List ℚ) :=
  y_categorical yUnclipped

/-- Embeds `Base_BHN._get_elbo`, categorical branch:
`self.logpyx = - cc(self.y, self.target_var).mean()`. -/
def logpyx_categorical (logf : ℚ → ℚ) (y target : List (List ℚ)) : ℚ :=
  -(mean (List.zipWith (cc logf) y target))

/-- Embeds `Base_BHN._get_elbo`, real branch:
`self.logpyx = - se(self.y, self.target_var).mean()` where `se` is the
elementwise squared error and `.mean()` averages over all entries. -/
def logpyx_real (y target : List (List ℚ)) : ℚ :=
  -(mean ((List.zipWith (fun yr tr => List.zipWith (fun a b => (a - b) * (a - b)) yr tr)
      y target).flatten))

/-- Embeds `Base_BHN._get_elbo` / `_get_primary_net` output dispatch: the
`categorical` and `real` branches succeed, anything else hits
`assert False`. -/
def logpyx_of (logf : ℚ → ℚ) (output_type : String) (y target : List (List ℚ)) :
    Except String ℚ :=
  if output_type = "categorical" then .ok (logpyx_categorical logf y target)
  else if output_type = "real" then .ok (logpyx_real y target)
  else .error "AssertionError in _get_elbo: unsupported output_type"

/-- One stage of the hypernet flow pipeline built in
`MLPWeightNorm_BHN._get_hyper_net`.  The stages themselves live in the
repository's `modules.py` (not under `src/`); only their identity and
order, which is what `_get_hyper_net` in `src/BHNs.py` determines, is
embedded here. -/
inductive Stage where
  | linear : Stage
  | coupling : Stage
  | permute : Stage
  | iaf : ℕ → Stage
deriving DecidableEq, Repr

/-- Embeds `MLPWeightNorm_BHN._get_hyper_net`, RealNVP branch body: start from
`CoupledDenseLayer`, then `for c in range(coupling - 1)` append a
`PermuteLayer` and another `CoupledDenseLayer`. -/
def realNVP_stack (coupling : ℕ) : List Stage :=
  (List.range (coupling - 1)).foldl
    (fun h _ => h ++ [Stage.permute, Stage.coupling]) [Stage.coupling]

/-- Embeds `MLPWeightNorm_BHN._get_hyper_net`: a `LinearFlowLayer` always comes
first; then `if self.flow == RealNVP`, the coupling stack is appended
only `if self.coupling:` (Python truthiness: a depth of `0` is falsy);
`elif self.flow == IAF` a single `IAFDenseLayer` with `L = coupling`;
`else: assert False`. -/
def get_hyper_net (flow : String) (coupling : ℕ) : Except String (List Stage) :=
  if flow = "RealNVP" then
    if coupling ≠ 0 then .ok ([Stage.linear] ++ realNVP_stack coupling)
    else .ok [Stage.linear]
  else if flow = "IAF" then .ok [Stage.linear, Stage.iaf coupling]
  else .error "AssertionError in _get_hyper_net: unsupported flow"

/-- Embeds `MLPWeightNorm_BHN._get_primary_net` output dispatch: `softmax`
nonlinearity for `categorical`, `linear` for `real`, `assert False`
otherwise. -/
def primary_nonlinearity (output_type : String) : Except String String :=
  if output_type = "categorical" then .ok "softmax"
  else if output_type = "real" then .ok "linear"
  else .error "AssertionError in _get_primary_net: unsupported output_type"

/-- Embeds `Base_BHN._get_grads` optimizer dispatch: `self.updates` is assigned
only in the `adam` / `momentum` / `sgd` branches; the method has no
`else`, so any other name leaves `self.updates` unset (`none`). -/
def optimizer_updates {α : Type} (opt : String) (cgrads : α) : Option (String × α) :=
  if opt = "adam" then some ("adam", cgrads)
  else if opt = "momentum" then some ("momentum", cgrads)
  else if opt = "sgd" then some ("sgd", cgrads)
  else none

/-- Embeds `Base_BHN._get_train_func` builds `theano.function(..., updates=self.updates)`;
if `_get_grads` never assigned `self.updates`, attribute lookup raises. -/
def get_train_func {α : Type} (updates : Option α) : Except String α :=
  match updates with
  | some u => .ok u
  | none => .error "AttributeError: object has no attribute updates"

/-- Embeds `Base_BHN.__init__` construction sequence, restricted to the steps
that validate the configuration: `_get_hyper_net`, `_get_primary_net`,
`_get_elbo`, `_get_grads`, `_get_train_func`, in that order.  `cgrads`
stands for the clipped gradients handed to the optimizer (embedded
separately over `ℝ`); here only the dispatch on the optimizer name
matters, so it is kept abstract. -/
def buildModel {α : Type} (flow output_type opt : String) (coupling : ℕ)
    (logf : ℚ → ℚ) (y target : List (List ℚ)) (logdets logpw : List ℚ)
    (weight dataset_size : ℚ) (cgrads : α) :
    Except String (List Stage × String × ℚ × (String × α)) :=
  match get_hyper_net flow coupling with
  | .error e => .error e
  | .ok stages =>
    match primary_nonlinearity output_type with
    | .error e => .error e
    | .ok nl =>
      match logpyx_of logf output_type y target with
      | .error e => .error e
      | .ok lp =>
        match get_train_func (optimizer_updates opt cgrads) with
        | .error e => .error e
        | .ok tf => .ok (stages, nl, loss lp logdets logpw weight dataset_size, tf)

/-- A serialized numpy value: its shape and (flattened) contents, as
handled by `Base_BHN.save` / `Base_BHN.load`. -/
structure NdArr where
  shape : List ℕ
  data : List ℚ
deriving DecidableEq, Repr

/-- Embeds `Base_BHN.save`:
`np.save(save_path, [p.get_value() for p in self.params] + notes)`. -/
def save (params notes : List NdArr) : List NdArr := params ++ notes

/-- Embeds `Base_BHN.load` assignment loop over `zip(self.params, values)`:
raise on the first shape mismatch, otherwise `p.set_value(v)`. -/
def set_values : List (NdArr × NdArr) → Except String (List NdArr)
  | [] => .ok []
  | (p, v) :: rest =>
    if p.shape = v.shape then (set_values rest).map (fun r => v :: r)
    else .error "ValueError: mismatch between parameter shape and value shape"

/-- Embeds `Base_BHN.load`: `notes = values[-1]; values = values[:-1]`, then the
count check, then the shape-checked assignment loop.  Returns the new
parameter values and the notes on success. -/
def load (archive : List NdArr) (params : List NdArr) :
    Except String (List NdArr × NdArr) :=
  match archive.getLast? with
  | none => .error "IndexError: values is empty"
  | some notes =>
    let values := archive.dropLast
    if params.length ≠ values.length then
      .error "ValueError: mismatch between number of values and parameters"
    else
      match set_values (params.zip values) with
      | .error e => .error e
      | .ok newvals => .ok (newvals, notes)

/-- Embeds `Base_BHN.max_norm` class attribute. -/
def max_norm : ℝ := 10

/-- Embeds `Base_BHN.clip_grad` class attribute. -/
def clip_grad : ℝ := 5

/-- Theano `T.clip` over `ℝ`, for the per-element gradient clipping. -/
def clipR (lo hi x : ℝ) : ℝ := min (max x lo) hi

/-- Modelled from the spec: `lasagne.updates.total_norm_constraint`
(external library, not part of this repository's sources) — the
"global-norm clip": jointly rescale the gradient elements so that their
global L2 norm is at most `maxn`.  The multiplier `maxn / max norm maxn`
is `1` when the norm is already within the bound and `maxn / norm`
otherwise (the library's `epsilon = 1e-7` smoothing is omitted). -/
noncomputable def total_norm_constraint (maxn : ℝ) (grads : List ℝ) : List ℝ :=
  let norm := Real.sqrt ((grads.map (fun g => g * g)).sum)
  grads.map (fun g => g * (maxn / max norm maxn))

/-- Embeds `Base_BHN._get_grads`:
`mgrads = total_norm_constraint(grads, max_norm=self.max_norm)` then
`cgrads = [T.clip(g, -self.clip_grad, self.clip_grad) for g in mgrads]`. -/
noncomputable def get_grads_cgrads (grads : List ℝ) : List ℝ :=
  (total_norm_constraint max_norm grads).map
    (fun g => clipR (-clip_grad) clip_grad g)

/-- Embeds `Base_BHN._get_grads`: the clipped gradients are what the optimizer
update rule receives. -/
noncomputable def get_grads (opt : String) (grads : List ℝ) :
    Option (String × List ℝ) :=
  optimizer_updates opt (get_grads_cgrads grads)

/-- Embeds `MLPWeightNorm_BHN.__init__`: `self.weight_shapes` starts with
`(n_inputs, n_units)`, then one `(n_units, n_units)` entry for each
`i in range(1, n_hiddens)`, then `(n_units, n_classes)`. -/
def weight_shapes (n_hiddens n_units n_inputs n_classes : ℕ) : List (ℕ × ℕ) :=
  [(n_inputs, n_units)]
    ++ (List.range (n_hiddens - 1)).map (fun _ => (n_units, n_units))
    ++ [(n_units, n_classes)]

/-- Embeds `MLPWeightNorm_BHN.__init__`:
`self.num_params = sum(ws[1] for ws in self.weight_shapes)`. -/
def num_params (ws : List (ℕ × ℕ)) : ℕ := (ws.map Prod.snd).sum

/-- Embeds `MLPWeightNorm_BHN._get_primary_net` slicing loop, started at
offset `t`: each layer consumes `self.weights[:, t:t + ws[1]]` and `t`
advances by `ws[1]`.  A slice is recorded as `(start, count)`. -/
def primary_net_slices_from : ℕ → List (ℕ × ℕ) → List (ℕ × ℕ)
  | _, [] => []
  | t, ws :: rest => (t, ws.2) :: primary_net_slices_from (t + ws.2) rest

/-- The weight slices consumed by `MLPWeightNorm_BHN._get_primary_net`
(`t` starts at `0`). -/
def primary_net_slices (ws : List (ℕ × ℕ)) : List (ℕ × ℕ) :=
  primary_net_slices_from 0 ws

end BHNs

namespace MlpHmc

/-- Embeds `mlp_hmc.get_num_params`: total number of scalar parameters of an
ordered `weight_shapes` mapping (variable name to shape). -/
def get_num_params (weight_shapes : List (String × List ℕ)) : ℕ :=
  (weight_shapes.map (fun kv => kv.2.prod)).sum

/-- Loop body of `mlp_hmc.unpack`: walk `weight_shapes` in order,
keeping the running offset `tt`; each variable receives
`v[tt:tt + num_param].reshape(ws)` (embedded as the flat slice; the
reshape, like numpy's, fails when the slice is shorter than
`prod(ws)`), and `tt` advances by `num_param`.  Returns the ordered
assignment together with the final `tt`. -/
def unpack_go (v : List ℚ) : ℕ → List (String × List ℕ) →
    Option (List (String × List ℚ) × ℕ)
  | tt, [] => some ([], tt)
  | tt, (varname, ws) :: rest =>
    let num_param := ws.prod
    let slice := (v.drop tt).take num_param
    if slice.length = num_param then
      match unpack_go v (tt + num_param) rest with
      | some (D, tfin) => some ((varname, slice) :: D, tfin)
      | none => none
    else none

/-- Embeds `mlp_hmc.unpack`: run the slicing loop from offset `0`, then
`assert(skip_chk or tt == len(v))`. -/
def unpack (v : List ℚ) (weight_shapes : List (String × List ℕ))
    (skip_chk : Bool) : Option (List (String × List ℚ)) :=
  match unpack_go v 0 weight_shapes with
  | some (D, tt) => if skip_chk = true ∨ tt = v.length then some D else none
  | none => none

/-- The ordered assignment `unpack` produces on success: variable `i`
gets the contiguous slice of `v` of length `prod(shape i)` starting
right after variable `i - 1`'s slice. -/
def canon (v : List ℚ) : ℕ → List (String × List ℕ) → List (String × List ℚ)
  | _, [] => []
  | tt, (varname, ws) :: rest =>
    (varname, (v.drop tt).take ws.prod) :: canon v (tt + ws.prod) rest

end MlpHmc

/-- Claim C1 as stated is false: the code computes
`kl = mean(logqw - logpw)` with `logqw = -logdets`, so the KL term is
`mean(-logdet - logprior)`, not `mean(logdet - logprior)`.  At
`logdets = [1]`, `logpw = [0]`, `loglik = [0]`, `w = 1`, `N = 1` the
code's loss is `-1` while the claimed formula gives `1`. -/
theorem C1_counterexample :
    BHNs.loss (BHNs.mean [(0 : ℚ)]) [1] [0] 1 1
      ≠ -(BHNs.mean [(0 : ℚ)]
          - 1 * BHNs.mean (List.zipWith (fun d p => d - p) [(1 : ℚ)] [(0 : ℚ)]) / 1) := by
  simp [BHNs.loss, BHNs.kl, BHNs.logqw, BHNs.mean]
  norm_num

/-- Claim C1, amended: for every input batch, target batch,
`dataset_size` `N` and `weight_coeff` `w`, the training loss computed in
`_get_elbo` equals `-(mean(loglik) - w * mean(-logdet - logprior) / N)`:
the per-row KL integrand is `-logdet - logprior` (that is,
`log q(w) - log p(w)` with `log q(w) = -logdet`), not
`logdet - logprior`. -/
theorem C1_elbo_loss_amended (loglik logdets logpw : List ℚ) (w N : ℚ) :
    BHNs.loss (BHNs.mean loglik) logdets logpw w N
      = -(BHNs.mean loglik
          - w * BHNs.mean (List.zipWith (fun d p => -d - p) logdets logpw) / N) := by
  simp only [BHNs.loss, BHNs.kl, BHNs.logqw, List.zipWith_map_left]

/-- Claim C5: for `weight_coeff = 0`, whatever the log-determinants, the
log-prior values and the dataset size, the loss equals the negative
log-likelihood term exactly; in particular, for categorical output it is
the mean categorical cross-entropy of the clipped predictions against
the targets. -/
theorem C5_weight_zero (logf : ℚ → ℚ) (yUnclipped target : List (List ℚ))
    (logdets logpw : List ℚ) (N : ℚ) :
    (∀ lp : ℚ, BHNs.loss lp logdets logpw 0 N = -lp) ∧
    BHNs.loss (BHNs.logpyx_categorical logf (BHNs.y_categorical yUnclipped) target)
        logdets logpw 0 N
      = BHNs.mean
          (List.zipWith (BHNs.cc logf) (BHNs.y_categorical yUnclipped) target) := by
  constructor
  · intro lp
    simp [BHNs.loss]
  · simp [BHNs.loss, BHNs.logpyx_categorical]

/-- The RealNVP stack built by the `for` loop is one coupling stage
followed by `k` copies of (permutation, coupling stage). -/
theorem realNVP_stack_eq (k : ℕ) :
    (List.range k).foldl (fun h _ => h ++ [BHNs.Stage.permute, BHNs.Stage.coupling])
        [BHNs.Stage.coupling]
      = BHNs.Stage.coupling ::
          (List.replicate k [BHNs.Stage.permute, BHNs.Stage.coupling]).flatten := by
  induction k with
  | zero => rfl
  | succ n ih =>
      rw [List.range_succ, List.foldl_append, ih, List.replicate_succ']
      simp

/-- Claim C3: in `MLPWeightNorm_BHN._get_hyper_net` with `flow = RealNVP`
and integer coupling depth `c`, the pipeline is the linear rescale stage
first and then, when `c ≥ 1`, one coupling stage followed by exactly
`c - 1` repetitions of a fixed permutation followed by another coupling
stage; when `c = 0` the pipeline is the linear rescale stage alone, and
construction succeeds. -/
theorem C3_realNVP_pipeline (c : ℕ) :
    BHNs.get_hyper_net "RealNVP" 0 = .ok [BHNs.Stage.linear] ∧
    (1 ≤ c →
      BHNs.get_hyper_net "RealNVP" c
        = .ok (BHNs.Stage.linear :: BHNs.Stage.coupling ::
            (List.replicate (c - 1)
              [BHNs.Stage.permute, BHNs.Stage.coupling]).flatten)) := by
  constructor
  · rfl
  · intro hc
    have hne : c ≠ 0 := Nat.one_le_iff_ne_zero.mp hc
    simp [BHNs.get_hyper_net, BHNs.realNVP_stack, hne, realNVP_stack_eq]

/-- Witness for C3 at coupling depth `3`. -/
theorem C3_realNVP_pipeline_witness :
    BHNs.get_hyper_net "RealNVP" 3
      = .ok (BHNs.Stage.linear :: BHNs.Stage.coupling ::
          (List.replicate 2 [BHNs.Stage.permute, BHNs.Stage.coupling]).flatten) :=
  (C3_realNVP_pipeline 3).2 (by decide)

/-- Helper: `_get_hyper_net` only returns a pipeline for the two supported flow
kinds. -/
theorem get_hyper_net_ok_flow {flow : String} {c : ℕ} {s : List BHNs.Stage}
    (h : BHNs.get_hyper_net flow c = .ok s) :
    flow = "RealNVP" ∨ flow = "IAF" := by
  by_cases h1 : flow = "RealNVP"
  · exact Or.inl h1
  · by_cases h2 : flow = "IAF"
    · exact Or.inr h2
    · simp [BHNs.get_hyper_net, h1, h2] at h

/-- Helper: `_get_primary_net` only accepts the two supported output types. -/
theorem primary_nonlinearity_ok {ot s : String}
    (h : BHNs.primary_nonlinearity ot = .ok s) :
    ot = "categorical" ∨ ot = "real" := by
  by_cases h1 : ot = "categorical"
  · exact Or.inl h1
  · by_cases h2 : ot = "real"
    · exact Or.inr h2
    · simp [BHNs.primary_nonlinearity, h1, h2] at h

/-- Helper: `_get_grads` assigns `self.updates` only for the three supported
optimizer names. -/
theorem optimizer_updates_some {α : Type} {opt : String} {c : α}
    {r : String × α} (h : BHNs.optimizer_updates opt c = some r) :
    opt = "adam" ∨ opt = "momentum" ∨ opt = "sgd" := by
  by_cases h1 : opt = "adam"
  · exact Or.inl h1
  · by_cases h2 : opt = "momentum"
    · exact Or.inr (Or.inl h2)
    · by_cases h3 : opt = "sgd"
      · exact Or.inr (Or.inr h3)
      · simp [BHNs.optimizer_updates, h1, h2, h3] at h

/-- A successfully constructed model has a supported flow kind, output
type and optimizer name. -/
theorem buildModel_ok_config {α : Type} {flow output_type opt : String}
    {coupling : ℕ} {logf : ℚ → ℚ} {y target : List (List ℚ)}
    {logdets logpw : List ℚ} {weight dataset_size : ℚ} {cgrads : α}
    {v : List BHNs.Stage × String × ℚ × (String × α)}
    (h : BHNs.buildModel flow output_type opt coupling logf y target
          logdets logpw weight dataset_size cgrads = .ok v) :
    (flow = "RealNVP" ∨ flow = "IAF") ∧
    (output_type = "categorical" ∨ output_type = "real") ∧
    (opt = "adam" ∨ opt = "momentum" ∨ opt = "sgd") := by
  unfold BHNs.buildModel at h
  cases hst : BHNs.get_hyper_net flow coupling with
  | error e => simp [hst] at h
  | ok st =>
    simp only [hst] at h
    cases hnl : BHNs.primary_nonlinearity output_type with
    | error e => simp [hnl] at h
    | ok nl =>
      simp only [hnl] at h
      cases hlp : BHNs.logpyx_of logf output_type y target with
      | error e => simp [hlp] at h
      | ok lp =>
        cases hou : BHNs.optimizer_updates opt cgrads with
        | none => simp [hlp, hou, BHNs.get_train_func] at h
        | some r =>
          exact ⟨get_hyper_net_ok_flow hst, primary_nonlinearity_ok hnl,
            optimizer_updates_some hou⟩

/-- Claim C4: constructing a `Base_BHN` model with an unsupported
configuration value — a flow kind other than RealNVP or IAF, an
output type other than categorical or real, or an optimizer name other
than adam, momentum or sgd — fails during the construction sequence
(`__init__`) with an error, rather than completing construction and
failing later during training. -/
theorem C4_invalid_config_fails {α : Type} (flow output_type opt : String)
    (coupling : ℕ) (logf : ℚ → ℚ) (y target : List (List ℚ))
    (logdets logpw : List ℚ) (weight dataset_size : ℚ) (cgrads : α)
    (h : (flow ≠ "RealNVP" ∧ flow ≠ "IAF") ∨
         (output_type ≠ "categorical" ∧ output_type ≠ "real") ∨
         (opt ≠ "adam" ∧ opt ≠ "momentum" ∧ opt ≠ "sgd")) :
    ∃ e, BHNs.buildModel flow output_type opt coupling logf y target
          logdets logpw weight dataset_size cgrads = .error e := by
  cases hb : BHNs.buildModel flow output_type opt coupling logf y target
      logdets logpw weight dataset_size cgrads with
  | error e => exact ⟨e, rfl⟩
  | ok v =>
    exfalso
    obtain ⟨hf, ho, hp⟩ := buildModel_ok_config hb
    rcases h with ⟨h1, h2⟩ | ⟨h1, h2⟩ | ⟨h1, h2, h3⟩ <;> tauto

/-- Witness for C4: an unsupported flow kind makes construction fail. -/
theorem C4_invalid_config_fails_witness :
    ∃ e, BHNs.buildModel "planar" "categorical" "adam" 1 id [] [] [] [] 1 1
          (0 : ℕ) = .error e :=
  C4_invalid_config_fails "planar" "categorical" "adam" 1 id [] [] [] [] 1 1
    (0 : ℕ) (Or.inl ⟨by decide, by decide⟩)

/-- Claim C2 fails on the code: `save` with its default `notes=[]`
serializes exactly the parameter list, but `load` always strips the last
archive entry as notes before the count check, so loading an archive
written with default notes never restores the parameters: for every
parameter list it raises (`IndexError` on an empty list, otherwise the
count-mismatch `ValueError`, with the last parameter consumed as notes). -/
theorem C2_default_notes_roundtrip_fails (params : List BHNs.NdArr) :
    ∃ e, BHNs.load (BHNs.save params []) params = .error e := by
  cases params with
  | nil => exact ⟨"IndexError: values is empty", rfl⟩
  | cons p ps =>
    cases hlast : (BHNs.save (p :: ps) []).getLast? with
    | none =>
      rw [BHNs.save, List.append_nil] at hlast
      simp at hlast
    | some notes =>
      refine ⟨"ValueError: mismatch between number of values and parameters", ?_⟩
      simp only [BHNs.load, hlast]
      have hlen : (p :: ps).length ≠ (BHNs.save (p :: ps) []).dropLast.length := by
        rw [BHNs.save, List.append_nil]
        simp
      rw [if_pos hlen]

/-- Concrete failing input for C2: three saved parameters, default
notes; `load` consumes the third parameter as notes and raises the
count-mismatch error instead of restoring the values. -/
theorem C2_roundtrip_concrete :
    BHNs.load (BHNs.save [⟨[2], []⟩, ⟨[3], []⟩, ⟨[1], []⟩] [])
        [⟨[2], []⟩, ⟨[3], []⟩, ⟨[1], []⟩]
      = .error "ValueError: mismatch between number of values and parameters" := by
  rfl

/-- The shape-checked assignment loop of `load` raises as soon as some
zipped pair disagrees on shape. -/
theorem set_values_error_of_mismatch (l : List (BHNs.NdArr × BHNs.NdArr))
    (h : ∃ pv ∈ l, pv.1.shape ≠ pv.2.shape) :
    ∃ e, BHNs.set_values l = .error e := by
  induction l with
  | nil => simp at h
  | cons hd tl ih =>
    obtain ⟨pv, hmem, hne⟩ := h
    obtain ⟨p, v⟩ := hd
    by_cases hhd : p.shape = v.shape
    · rcases List.mem_cons.mp hmem with rfl | htl
      · exact absurd hhd hne
      · obtain ⟨e, he⟩ := ih ⟨pv, htl, hne⟩
        refine ⟨e, ?_⟩
        simp only [BHNs.set_values]
        rw [if_pos hhd, he]
        rfl
    · refine ⟨"ValueError: mismatch between parameter shape and value shape", ?_⟩
      simp only [BHNs.set_values]
      rw [if_neg hhd]

/-- Claim C8: `Base_BHN.load` raises whenever the archive does not
structurally match the current parameter list — when the number of
deserialized values after removing the trailing notes entry differs
from the number of parameters, or when some value's shape differs from
the shape of the parameter it would be assigned to by position. -/
theorem C8_load_structural_mismatch (archive params : List BHNs.NdArr)
    (h : archive.dropLast.length ≠ params.length ∨
         ∃ i, ∃ hp : i < params.length, ∃ hv : i < archive.dropLast.length,
           (params.get ⟨i, hp⟩).shape ≠ (archive.dropLast.get ⟨i, hv⟩).shape) :
    ∃ e, BHNs.load archive params = .error e := by
  cases hlast : archive.getLast? with
  | none => exact ⟨"IndexError: values is empty", by simp only [BHNs.load, hlast]⟩
  | some notes =>
    by_cases hlen : params.length ≠ archive.dropLast.length
    · exact ⟨_, by
        simp only [BHNs.load, hlast]
        rw [if_pos hlen]⟩
    · push_neg at hlen
      rcases h with hcount | ⟨i, hp, hv, hne⟩
      · exact absurd hlen.symm hcount
      · have hiz : i < (params.zip archive.dropLast).length := by
          rw [List.length_zip]
          omega
        have hmem : (params.get ⟨i, hp⟩, archive.dropLast.get ⟨i, hv⟩)
            ∈ params.zip archive.dropLast := by
          have hget : (params.zip archive.dropLast).get ⟨i, hiz⟩
              = (params.get ⟨i, hp⟩, archive.dropLast.get ⟨i, hv⟩) := by
            simp [List.get_eq_getElem, List.getElem_zip]
          rw [← hget]
          exact List.get_mem _ _ _
        obtain ⟨e, he⟩ := set_values_error_of_mismatch _ ⟨_, hmem, hne⟩
        refine ⟨e, ?_⟩
        simp only [BHNs.load, hlast]
        rw [if_neg (by omega), he]

/-- Witness for C8: one parameter of shape `[3]`, archive value of shape
`[2]` (plus a trailing notes entry): `load` raises. -/
theorem C8_load_structural_mismatch_witness :
    ∃ e, BHNs.load [⟨[2], []⟩, ⟨[0], []⟩] [⟨[3], []⟩] = .error e :=
  C8_load_structural_mismatch [⟨[2], []⟩, ⟨[0], []⟩] [⟨[3], []⟩]
    (Or.inr ⟨0, by decide, by decide, by decide⟩)

/-- The counts of the primary-net slices are the `out_dim` entries of
the weight-shape list, in order. -/
theorem primary_net_slices_from_snd (ws : List (ℕ × ℕ)) :
    ∀ t, (BHNs.primary_net_slices_from t ws).map Prod.snd = ws.map Prod.snd := by
  induction ws with
  | nil => intro t; rfl
  | cons w rest ih => intro t; simp [BHNs.primary_net_slices_from, ih]

/-- Concatenating the index ranges of the slices started at `t` gives
the contiguous range `[t, t + num_params)`. -/
theorem primary_net_slices_from_flat (ws : List (ℕ × ℕ)) :
    ∀ t, (BHNs.primary_net_slices_from t ws).flatMap (fun s => List.range' s.1 s.2)
      = List.range' t (BHNs.num_params ws) := by
  induction ws with
  | nil => intro t; simp [BHNs.primary_net_slices_from, BHNs.num_params]
  | cons w rest ih =>
    intro t
    simp only [BHNs.primary_net_slices_from, List.flatMap_cons, ih,
      BHNs.num_params, List.map_cons, List.sum_cons]
    have h := List.range'_append t w.2 ((rest.map Prod.snd).sum) 1
    rw [one_mul] at h
    rw [h, Nat.add_comm]

/-- Every slice started at `t` starts at or after `t`. -/
theorem primary_net_slices_from_le (ws : List (ℕ × ℕ)) :
    ∀ t, ∀ s ∈ BHNs.primary_net_slices_from t ws, t ≤ s.1 := by
  induction ws with
  | nil => intro t s hs; simp [BHNs.primary_net_slices_from] at hs
  | cons w rest ih =>
    intro t s hs
    rcases List.mem_cons.mp hs with rfl | hs'
    · exact le_refl t
    · exact le_trans (Nat.le_add_right t w.2) (ih (t + w.2) s hs')

/-- The slices are strictly ordered: each one ends at or before the
start of every later one (so they are pairwise disjoint). -/
theorem primary_net_slices_from_pairwise (ws : List (ℕ × ℕ)) :
    ∀ t, List.Pairwise (fun a b => a.1 + a.2 ≤ b.1)
      (BHNs.primary_net_slices_from t ws) := by
  induction ws with
  | nil => intro t; simp [BHNs.primary_net_slices_from]
  | cons w rest ih =>
    intro t
    refine List.pairwise_cons.mpr ⟨?_, ih (t + w.2)⟩
    intro b hb
    exact primary_net_slices_from_le rest (t + w.2) b hb

/-- Each slice starts exactly where the previous one ended. -/
theorem primary_net_slices_from_chain (ws : List (ℕ × ℕ)) :
    ∀ t, List.Chain' (fun a b => a.1 + a.2 = b.1)
      (BHNs.primary_net_slices_from t ws) := by
  induction ws with
  | nil => intro t; simp [BHNs.primary_net_slices_from]
  | cons w rest ih =>
    intro t
    cases rest with
    | nil => simp [BHNs.primary_net_slices_from]
    | cons w2 rest2 =>
      show List.Chain' _ ((t, w.2) :: (t + w.2, w2.2) ::
        BHNs.primary_net_slices_from (t + w.2 + w2.2) rest2)
      rw [List.chain'_cons]
      exact ⟨rfl, ih (t + w.2)⟩

/-- Claim C6: for every `MLPWeightNorm_BHN` configuration with
`n_hiddens ≥ 1`, the per-layer weight slices consumed by
`_get_primary_net` have exactly the `out_dim` counts of the weight
shapes in layer order, sum to `num_params`, start exactly where the
previous slice ended, are pairwise disjoint, and their index ranges
concatenate to `[0, num_params)` — full coverage with no gap, overlap
or remainder. -/
theorem C6_weight_slices (n_hiddens n_units n_inputs n_classes : ℕ)
    (h : 1 ≤ n_hiddens) :
    (BHNs.primary_net_slices
        (BHNs.weight_shapes n_hiddens n_units n_inputs n_classes)).map Prod.snd
      = (BHNs.weight_shapes n_hiddens n_units n_inputs n_classes).map Prod.snd ∧
    ((BHNs.primary_net_slices
        (BHNs.weight_shapes n_hiddens n_units n_inputs n_classes)).map Prod.snd).sum
      = BHNs.num_params (BHNs.weight_shapes n_hiddens n_units n_inputs n_classes) ∧
    (BHNs.primary_net_slices
        (BHNs.weight_shapes n_hiddens n_units n_inputs n_classes)).flatMap
          (fun s => List.range' s.1 s.2)
      = List.range
          (BHNs.num_params (BHNs.weight_shapes n_hiddens n_units n_inputs n_classes)) ∧
    List.Chain' (fun a b => a.1 + a.2 = b.1)
      (BHNs.primary_net_slices
        (BHNs.weight_shapes n_hiddens n_units n_inputs n_classes)) ∧
    List.Pairwise (fun a b => a.1 + a.2 ≤ b.1)
      (BHNs.primary_net_slices
        (BHNs.weight_shapes n_hiddens n_units n_inputs n_classes)) := by
  refine ⟨primary_net_slices_from_snd _ 0, ?_, ?_, ?_, ?_⟩
  · rw [BHNs.primary_net_slices, primary_net_slices_from_snd]
    rfl
  · rw [BHNs.primary_net_slices, primary_net_slices_from_flat, List.range_eq_range']
  · exact primary_net_slices_from_chain _ 0
  · exact primary_net_slices_from_pairwise _ 0

/-- Witness for C6 at `n_hiddens = 1`, `n_units = 2`, `n_inputs = 3`,
`n_classes = 4`. -/
theorem C6_weight_slices_witness :
    (BHNs.primary_net_slices (BHNs.weight_shapes 1 2 3 4)).map Prod.snd
      = (BHNs.weight_shapes 1 2 3 4).map Prod.snd ∧
    ((BHNs.primary_net_slices (BHNs.weight_shapes 1 2 3 4)).map Prod.snd).sum
      = BHNs.num_params (BHNs.weight_shapes 1 2 3 4) ∧
    (BHNs.primary_net_slices (BHNs.weight_shapes 1 2 3 4)).flatMap
        (fun s => List.range' s.1 s.2)
      = List.range (BHNs.num_params (BHNs.weight_shapes 1 2 3 4)) ∧
    List.Chain' (fun a b => a.1 + a.2 = b.1)
      (BHNs.primary_net_slices (BHNs.weight_shapes 1 2 3 4)) ∧
    List.Pairwise (fun a b => a.1 + a.2 ≤ b.1)
      (BHNs.primary_net_slices (BHNs.weight_shapes 1 2 3 4)) :=
  C6_weight_slices 1 2 3 4 (by decide)

/-- Claim C7: for categorical output, `predict_proba` returns exactly
the clipped tensor `self.y` that the cross-entropy term of the loss
also consumes, and every entry of it lies in `[0.001, 0.999]`, for
every input. -/
theorem C7_predict_proba_clipped (yUnclipped : List (List ℚ)) :
    BHNs.predict_proba yUnclipped = BHNs.y_categorical yUnclipped ∧
    ∀ row ∈ BHNs.predict_proba yUnclipped, ∀ x ∈ row,
      1/1000 ≤ x ∧ x ≤ 999/1000 := by
  refine ⟨rfl, ?_⟩
  intro row hrow x hx
  simp only [BHNs.predict_proba, BHNs.y_categorical, List.mem_map] at hrow
  obtain ⟨r, _, rfl⟩ := hrow
  simp only [List.mem_map] at hx
  obtain ⟨a, _, rfl⟩ := hx
  unfold BHNs.clip
  constructor
  · exact le_min (le_max_right a (1/1000)) (by norm_num)
  · exact min_le_right _ _

/-- Witness for C7 on the unclipped value `1/2`. -/
theorem C7_predict_proba_clipped_witness :
    1/1000 ≤ BHNs.clip (1/1000) (999/1000) (1/2 : ℚ) ∧
    BHNs.clip (1/1000) (999/1000) (1/2 : ℚ) ≤ 999/1000 :=
  (C7_predict_proba_clipped [[1/2]]).2
    [BHNs.clip (1/1000) (999/1000) (1/2)]
    (by simp [BHNs.predict_proba, BHNs.y_categorical])
    (BHNs.clip (1/1000) (999/1000) (1/2)) (by simp)

/-- Rescaling every element by a nonnegative factor `m` scales the
global L2 norm by `m`. -/
theorem sqrt_sum_sq_map_mul (grads : List ℝ) (m : ℝ) (hm : 0 ≤ m) :
    Real.sqrt (((grads.map (fun g => g * m)).map (fun g => g * g)).sum)
      = m * Real.sqrt ((grads.map (fun g => g * g)).sum) := by
  rw [List.map_map]
  have h1 : ((fun g => g * g) ∘ fun g => g * m) = fun g : ℝ => m ^ 2 * (g * g) := by
    funext g
    simp only [Function.comp_apply]
    ring
  rw [h1, List.sum_map_mul_left, Real.sqrt_mul (sq_nonneg m), Real.sqrt_sq hm]

/-- Claim C9: in `_get_grads` the gradients are first jointly rescaled
so that their global L2 norm is at most `max_norm = 10`; afterwards each
element of the rescaled gradients is clipped to
`[-clip_grad, clip_grad] = [-5, 5]`; and that doubly clipped list is
exactly what each supported optimizer update rule receives. -/
theorem C9_grad_clipping (grads : List ℝ) :
    Real.sqrt (((BHNs.total_norm_constraint BHNs.max_norm grads).map
        (fun g => g * g)).sum) ≤ BHNs.max_norm ∧
    BHNs.get_grads_cgrads grads
      = (BHNs.total_norm_constraint BHNs.max_norm grads).map
          (fun g => BHNs.clipR (-BHNs.clip_grad) BHNs.clip_grad g) ∧
    (∀ x ∈ BHNs.get_grads_cgrads grads,
      -BHNs.clip_grad ≤ x ∧ x ≤ BHNs.clip_grad) ∧
    (∀ opt, opt = "adam" ∨ opt = "momentum" ∨ opt = "sgd" →
      BHNs.get_grads opt grads = some (opt, BHNs.get_grads_cgrads grads)) := by
  have htnc : BHNs.total_norm_constraint BHNs.max_norm grads
      = grads.map (fun g => g * (BHNs.max_norm /
          max (Real.sqrt ((grads.map (fun g => g * g)).sum)) BHNs.max_norm)) := rfl
  have hD10 : BHNs.max_norm
      ≤ max (Real.sqrt ((grads.map (fun g => g * g)).sum)) BHNs.max_norm :=
    le_max_right _ _
  have hDpos : 0 < max (Real.sqrt ((grads.map (fun g => g * g)).sum)) BHNs.max_norm :=
    lt_of_lt_of_le (by norm_num [BHNs.max_norm]) hD10
  have hm : 0 ≤ BHNs.max_norm /
      max (Real.sqrt ((grads.map (fun g => g * g)).sum)) BHNs.max_norm :=
    div_nonneg (by norm_num [BHNs.max_norm]) hDpos.le
  refine ⟨?_, rfl, ?_, ?_⟩
  · rw [htnc, sqrt_sum_sq_map_mul grads _ hm]
    calc BHNs.max_norm /
          max (Real.sqrt ((grads.map (fun g => g * g)).sum)) BHNs.max_norm *
          Real.sqrt ((grads.map (fun g => g * g)).sum)
        = BHNs.max_norm * (Real.sqrt ((grads.map (fun g => g * g)).sum) /
            max (Real.sqrt ((grads.map (fun g => g * g)).sum)) BHNs.max_norm) := by
          ring
      _ ≤ BHNs.max_norm * 1 :=
          mul_le_mul_of_nonneg_left
            (div_le_one_of_le₀ (le_max_left _ _) hDpos.le)
            (by norm_num [BHNs.max_norm])
      _ = BHNs.max_norm := mul_one _
  · intro x hx
    simp only [BHNs.get_grads_cgrads, List.mem_map] at hx
    obtain ⟨a, _, rfl⟩ := hx
    unfold BHNs.clipR
    refine ⟨le_min (le_max_right a _) ?_, min_le_right _ _⟩
    norm_num [BHNs.clip_grad]
  · intro opt hopt
    rcases hopt with rfl | rfl | rfl <;> rfl

/-- Witness for C9: the clipped gradients are what `adam` receives. -/
theorem C9_grad_clipping_witness :
    BHNs.get_grads "adam" [3] = some ("adam", BHNs.get_grads_cgrads [3]) :=
  (C9_grad_clipping [3]).2.2.2 "adam" (Or.inl rfl)

/-- When `v` has enough elements left, the slicing loop succeeds and
returns the canonical ordered assignment together with the advanced
offset. -/
theorem unpack_go_ok (v : List ℚ) :
    ∀ (wsd : List (String × List ℕ)) (tt : ℕ),
      tt + MlpHmc.get_num_params wsd ≤ v.length →
      MlpHmc.unpack_go v tt wsd
        = some (MlpHmc.canon v tt wsd, tt + MlpHmc.get_num_params wsd) := by
  intro wsd
  induction wsd with
  | nil =>
    intro tt h
    simp [MlpHmc.unpack_go, MlpHmc.canon, MlpHmc.get_num_params]
  | cons kv rest ih =>
    obtain ⟨name, ws⟩ := kv
    intro tt h
    simp only [MlpHmc.get_num_params, List.map_cons, List.sum_cons] at h
    have hlen : ((v.drop tt).take ws.prod).length = ws.prod := by
      simp only [List.length_take, List.length_drop]
      omega
    have hrec : tt + ws.prod + MlpHmc.get_num_params rest ≤ v.length := by
      simp only [MlpHmc.get_num_params]
      omega
    simp only [MlpHmc.unpack_go]
    rw [if_pos hlen, ih (tt + ws.prod) hrec]
    simp only [MlpHmc.canon, MlpHmc.get_num_params, List.map_cons, List.sum_cons]
    rw [Nat.add_assoc]

/-- When `v` is too short for the declared shapes, some reshape fails
and the slicing loop returns `none`. -/
theorem unpack_go_none (v : List ℚ) :
    ∀ (wsd : List (String × List ℕ)) (tt : ℕ), tt ≤ v.length →
      v.length < tt + MlpHmc.get_num_params wsd →
      MlpHmc.unpack_go v tt wsd = none := by
  intro wsd
  induction wsd with
  | nil =>
    intro tt h1 h2
    simp only [MlpHmc.get_num_params, List.map_nil, List.sum_nil] at h2
    omega
  | cons kv rest ih =>
    obtain ⟨name, ws⟩ := kv
    intro tt h1 h2
    simp only [MlpHmc.get_num_params, List.map_cons, List.sum_cons] at h2
    by_cases hsl : ((v.drop tt).take ws.prod).length = ws.prod
    · have h3 : tt + ws.prod ≤ v.length := by
        simp only [List.length_take, List.length_drop] at hsl
        omega
      have h4 : v.length < tt + ws.prod + MlpHmc.get_num_params rest := by
        simp only [MlpHmc.get_num_params]
        omega
      simp only [MlpHmc.unpack_go]
      rw [if_pos hsl, ih (tt + ws.prod) h3 h4]
    · simp only [MlpHmc.unpack_go]
      rw [if_neg hsl]

/-- The canonical assignment preserves the variable names in order. -/
theorem canon_keys (v : List ℚ) :
    ∀ (wsd : List (String × List ℕ)) (tt : ℕ),
      (MlpHmc.canon v tt wsd).map Prod.fst = wsd.map Prod.fst := by
  intro wsd
  induction wsd with
  | nil => intro tt; rfl
  | cons kv rest ih =>
    obtain ⟨name, ws⟩ := kv
    intro tt
    simp [MlpHmc.canon, ih]

/-- Each canonical value has exactly `prod(shape)` scalars. -/
theorem canon_lengths (v : List ℚ) :
    ∀ (wsd : List (String × List ℕ)) (tt : ℕ),
      tt + MlpHmc.get_num_params wsd ≤ v.length →
      (MlpHmc.canon v tt wsd).map (fun kv => kv.2.length)
        = wsd.map (fun kv => kv.2.prod) := by
  intro wsd
  induction wsd with
  | nil => intro tt _; rfl
  | cons kv rest ih =>
    obtain ⟨name, ws⟩ := kv
    intro tt h
    simp only [MlpHmc.get_num_params, List.map_cons, List.sum_cons] at h
    have hlen : ((v.drop tt).take ws.prod).length = ws.prod := by
      simp only [List.length_take, List.length_drop]
      omega
    have hrec : tt + ws.prod + MlpHmc.get_num_params rest ≤ v.length := by
      simp only [MlpHmc.get_num_params]
      omega
    simp only [MlpHmc.canon, List.map_cons, hlen, ih (tt + ws.prod) hrec]

/-- Concatenating the canonical values in key order reconstructs the
consumed segment of `v`. -/
theorem canon_flatten (v : List ℚ) :
    ∀ (wsd : List (String × List ℕ)) (tt : ℕ),
      tt + MlpHmc.get_num_params wsd ≤ v.length →
      ((MlpHmc.canon v tt wsd).map Prod.snd).flatten
        = (v.drop tt).take (MlpHmc.get_num_params wsd) := by
  intro wsd
  induction wsd with
  | nil =>
    intro tt _
    simp [MlpHmc.canon, MlpHmc.get_num_params]
  | cons kv rest ih =>
    obtain ⟨name, ws⟩ := kv
    intro tt h
    simp only [MlpHmc.get_num_params, List.map_cons, List.sum_cons] at h
    have hrec : tt + ws.prod + MlpHmc.get_num_params rest ≤ v.length := by
      simp only [MlpHmc.get_num_params]
      omega
    simp only [MlpHmc.canon, List.map_cons, List.flatten_cons,
      ih (tt + ws.prod) hrec, MlpHmc.get_num_params, List.map_cons, List.sum_cons]
    rw [List.take_add, List.drop_add]

/-- Claim C10: for an ordered `weight_shapes` mapping with distinct
variable names and a flat vector `v` of length `get_num_params`,
`unpack` (with either `skip_chk` value) returns the assignment that
walks the keys in order, giving each variable the contiguous slice of
length `prod(shape)` that starts right after the previous variable's
slice; the keys come back in the same order, the flattened values
concatenate back to `v` exactly; and with `skip_chk = False`, `unpack`
succeeds exactly when the slices consume `v` entirely. -/
theorem C10_unpack (wsd : List (String × List ℕ))
    (hnd : (wsd.map Prod.fst).Nodup) :
    (∀ v : List ℚ, v.length = MlpHmc.get_num_params wsd →
      MlpHmc.unpack v wsd true = some (MlpHmc.canon v 0 wsd) ∧
      MlpHmc.unpack v wsd false = some (MlpHmc.canon v 0 wsd) ∧
      (MlpHmc.canon v 0 wsd).map Prod.fst = wsd.map Prod.fst ∧
      (MlpHmc.canon v 0 wsd).map (fun kv => kv.2.length)
        = wsd.map (fun kv => kv.2.prod) ∧
      ((MlpHmc.canon v 0 wsd).map Prod.snd).flatten = v) ∧
    (∀ v : List ℚ,
      (MlpHmc.unpack v wsd false).isSome ↔
        v.length = MlpHmc.get_num_params wsd) := by
  constructor
  · intro v hv
    have hgo := unpack_go_ok v wsd 0 (by omega)
    refine ⟨?_, ?_, canon_keys v wsd 0, canon_lengths v wsd 0 (by omega), ?_⟩
    · simp [MlpHmc.unpack, hgo]
    · simp [MlpHmc.unpack, hgo, hv]
    · have hf := canon_flatten v wsd 0 (by omega)
      rw [hf, List.drop_zero, ← hv, List.take_length]
  · intro v
    constructor
    · intro hsome
      by_contra hne
      rcases Nat.lt_or_ge v.length (MlpHmc.get_num_params wsd) with hlt | hge
      · rw [MlpHmc.unpack, unpack_go_none v wsd 0 (Nat.zero_le _) (by omega)]
          at hsome
        simp at hsome
      · have hgo := unpack_go_ok v wsd 0 (by omega)
        have hcond : ¬ (false = true ∨ 0 + MlpHmc.get_num_params wsd = v.length) := by
          simp only [Bool.false_eq_true, false_or, Nat.zero_add]
          omega
        rw [MlpHmc.unpack, hgo] at hsome
        simp only [if_neg hcond] at hsome
        simp at hsome
    · intro hlen
      have hgo := unpack_go_ok v wsd 0 (by omega)
      simp [MlpHmc.unpack, hgo, hlen]

/-- Witness for C10 on `weight_shapes = [(a, [2]), (b, [1, 3])]` and
`v = [1, 2, 3, 4, 5]`. -/
theorem C10_unpack_witness :
    MlpHmc.unpack [1, 2, 3, 4, 5] [("a", [2]), ("b", [1, 3])] false
      = some (MlpHmc.canon [1, 2, 3, 4, 5] 0 [("a", [2]), ("b", [1, 3])]) :=
  ((C10_unpack [("a", [2]), ("b", [1, 3])] (by decide)).1
    [1, 2, 3, 4, 5] (by rfl)).2.1
